import Mathlib

/-!
Verification of the chess session engine in `src/chess.com.py` (class
`WebChessGame` and its helpers).

The repository's own code is the `WebChessGame` wrapper; the move-legality
and game-state engine it calls (`chess.Board` of the python-chess library)
is not part of the repository's sources, so the board engine below is
modelled from the specification (§3 Data Model, §4.1 Position & Move
Generator, §4.3 Status Computation): standard chess movement, castling,
en passant, promotion, king-safety filtering, and snapshot-restoring undo.
The `WebChessGame` operations themselves (`make_move`, `undo_move`,
`reset_game`, `get_board_state`, `get_legal_moves_from_square`,
`get_game_status`) are translated directly from the source.
-/

namespace ChessCom

/-- Piece colors. Modelled from the spec: "a *color* (one of two)". -/
inductive Color where
  | white
  | black
deriving DecidableEq, Repr

/-- The opposite color. -/
def Color.other : Color → Color
  | .white => .black
  | .black => .white

/-- Piece kinds. Modelled from the spec: "a *kind* (one of six)". -/
inductive PieceKind where
  | pawn
  | knight
  | bishop
  | rook
  | queen
  | king
deriving DecidableEq, Repr

/-- A piece: kind plus color. Modelled from the spec §3. -/
structure Piece where
  kind : PieceKind
  color : Color
deriving DecidableEq, Repr

/-- Squares are numbered 0..63 as in the source's board library:
square = 8 * rank + file, a1 = 0, h1 = 7, a8 = 56, h8 = 63. -/
def fileOf (sq : Nat) : Nat := sq % 8

/-- Rank index (0..7) of a square. -/
def rankOf (sq : Nat) : Nat := sq / 8

/-- File as an integer, for coordinate arithmetic. -/
def fileZ (sq : Nat) : Int := (fileOf sq : Int)

/-- Rank as an integer, for coordinate arithmetic. -/
def rankZ (sq : Nat) : Int := (rankOf sq : Int)

/-- The square with integer file `f` and rank `r`, when on the board. -/
def squareAtFR (f r : Int) : Option Nat :=
  if 0 ≤ f ∧ f ≤ 7 ∧ 0 ≤ r ∧ r ≤ 7 then some ((r * 8 + f).toNat) else none

/-- The name of a square, e.g. square 0 is "a1". -/
def square_name (sq : Nat) : String :=
  String.mk [Char.ofNat (97 + fileOf sq), Char.ofNat (49 + rankOf sq)]

/-- `chess.parse_square`: looks the name up in the list of the 64 square
names; `none` models the `ValueError` raised when the name is not found. -/
def parse_square (name : String) : Option Nat :=
  (List.range 64).find? (fun sq => square_name sq = name)

/-- The position. Modelled from the spec §3: an 8×8 grid of squares
(each empty or occupied), side-to-move, castling-rights flags (per side,
per wing), en-passant target square, halfmove clock, fullmove number.
`pieces` has length 64, indexed by square number. -/
structure BoardState where
  pieces : List (Option Piece)
  turn : Color
  castlingWK : Bool
  castlingWQ : Bool
  castlingBK : Bool
  castlingBQ : Bool
  epSquare : Option Nat
  halfmoveClock : Nat
  fullmoveNumber : Nat
deriving DecidableEq, Repr

/-- The piece on a square, if any. -/
def pieceAt (st : BoardState) (sq : Nat) : Option Piece :=
  (st.pieces.getD sq none)

/-- A move: origin, destination, optional promotion kind.
Modelled from the spec §3: "an ordered pair of squares (origin,
destination) plus an optional promotion piece-kind". -/
structure Move where
  fromSq : Nat
  toSq : Nat
  promotion : Option PieceKind
deriving DecidableEq, Repr

/-- The piece initially on a square in the standard starting arrangement. -/
def startPieceAt (sq : Nat) : Option Piece :=
  let backRank : List PieceKind :=
    [.rook, .knight, .bishop, .queen, .king, .bishop, .knight, .rook]
  if rankOf sq = 0 then some ⟨backRank.getD (fileOf sq) .rook, .white⟩
  else if rankOf sq = 1 then some ⟨.pawn, .white⟩
  else if rankOf sq = 6 then some ⟨.pawn, .black⟩
  else if rankOf sq = 7 then some ⟨backRank.getD (fileOf sq) .rook, .black⟩
  else none

/-- The standard starting position (`chess.Board()`), modelled from the
spec: "the standard starting arrangement", white to move, full castling
rights, no en-passant target, clocks at their initial values. -/
def startState : BoardState where
  pieces := (List.range 64).map startPieceAt
  turn := .white
  castlingWK := true
  castlingWQ := true
  castlingBK := true
  castlingBQ := true
  epSquare := none
  halfmoveClock := 0
  fullmoveNumber := 1

/-- First piece met walking from `(f, r)` in direction `(df, dr)`
(the square `(f, r)` itself excluded); `none` if the ray leaves the board
before meeting a piece.  `fuel` bounds the walk (7 steps suffice). -/
def rayFirst (st : BoardState) (df dr : Int) : Nat → Int → Int → Option Piece
  | 0, _, _ => none
  | fuel + 1, f, r =>
    match squareAtFR (f + df) (r + dr) with
    | none => none
    | some sq =>
      match pieceAt st sq with
      | some p => some p
      | none => rayFirst st df dr fuel (f + df) (r + dr)

/-- Knight move offsets. -/
def knightOffsets : List (Int × Int) :=
  [(1, 2), (2, 1), (2, -1), (1, -2), (-1, -2), (-2, -1), (-2, 1), (-1, 2)]

/-- King move offsets. -/
def kingOffsets : List (Int × Int) :=
  [(1, 1), (1, 0), (1, -1), (0, 1), (0, -1), (-1, 1), (-1, 0), (-1, -1)]

/-- Rook / queen ray directions. -/
def rookDirs : List (Int × Int) := [(1, 0), (-1, 0), (0, 1), (0, -1)]

/-- Bishop / queen ray directions. -/
def bishopDirs : List (Int × Int) := [(1, 1), (1, -1), (-1, 1), (-1, -1)]

/-- Does some piece of color `c` attack `target`?  Modelled from the
spec §3/§4.1 movement patterns: knight and king by offset, pawns
diagonally forward, sliders along unobstructed rays. -/
def attacked (st : BoardState) (c : Color) (target : Nat) : Bool :=
  let f := fileZ target
  let r := rankZ target
  let hasAt (f' r' : Int) (k : PieceKind) : Bool :=
    match squareAtFR f' r' with
    | some sq => pieceAt st sq = some ⟨k, c⟩
    | none => false
  let pawnRankBehind : Int := match c with | .white => r - 1 | .black => r + 1
  (knightOffsets.any fun d => hasAt (f + d.1) (r + d.2) .knight) ||
  (kingOffsets.any fun d => hasAt (f + d.1) (r + d.2) .king) ||
  (hasAt (f - 1) pawnRankBehind .pawn || hasAt (f + 1) pawnRankBehind .pawn) ||
  (rookDirs.any fun d =>
    match rayFirst st d.1 d.2 7 f r with
    | some p => (p.kind = PieceKind.rook ∨ p.kind = PieceKind.queen) ∧ p.color = c
    | none => false) ||
  (bishopDirs.any fun d =>
    match rayFirst st d.1 d.2 7 f r with
    | some p => (p.kind = PieceKind.bishop ∨ p.kind = PieceKind.queen) ∧ p.color = c
    | none => false)

/-- The square of the king of color `c` (64 if absent; the spec's
invariant "exactly one king of each color is present" rules that out on
positions in use). -/
def kingSquare (st : BoardState) (c : Color) : Nat :=
  ((List.range 64).find? fun sq =>
    pieceAt st sq = some ⟨PieceKind.king, c⟩).getD 64

/-- `board.is_check()`: the side to move's king is attacked. -/
def is_check (st : BoardState) : Bool :=
  attacked st st.turn.other (kingSquare st st.turn)

/-- Is the move a capture in `st` (ordinary or en passant)? -/
def isCaptureMove (st : BoardState) (m : Move) : Bool :=
  (pieceAt st m.toSq).isSome ||
  (match pieceAt st m.fromSq with
   | some p => p.kind = PieceKind.pawn && st.epSquare = some m.toSq &&
       fileOf m.fromSq ≠ fileOf m.toSq
   | none => false)

/-- Apply a move to the position.  Modelled from the spec §4.2: "apply
the move (updating piece placement, captured piece removal, en-passant
target, castling rights, halfmove/fullmove counters, side-to-move)".
Handles en-passant removal, castling rook relocation and promotion.
On a square without a piece of any kind the position is returned
unchanged (never reached for generated moves). -/
def applyMove (st : BoardState) (m : Move) : BoardState :=
  match pieceAt st m.fromSq with
  | none => st
  | some pc =>
    let isEp : Bool := pc.kind = PieceKind.pawn && st.epSquare = some m.toSq &&
      fileOf m.fromSq ≠ fileOf m.toSq
    let isCastle : Bool := pc.kind = PieceKind.king &&
      ((fileZ m.toSq) - (fileZ m.fromSq) = 2 || (fileZ m.fromSq) - (fileZ m.toSq) = 2)
    let captured : Bool := (pieceAt st m.toSq).isSome || isEp
    let placed : Piece := match m.promotion with
      | some k => ⟨k, pc.color⟩
      | none => pc
    let ps1 := st.pieces.set m.fromSq none
    let ps2 := if isEp then
        ps1.set (match pc.color with | .white => m.toSq - 8 | .black => m.toSq + 8) none
      else ps1
    let ps3 := ps2.set m.toSq (some placed)
    let ps4 := if isCastle then
        if fileOf m.toSq = 6 then
          (ps3.set (m.toSq + 1) none).set (m.toSq - 1) (some ⟨PieceKind.rook, pc.color⟩)
        else
          (ps3.set (m.toSq - 2) none).set (m.toSq + 1) (some ⟨PieceKind.rook, pc.color⟩)
      else ps3
    let kingMovedW : Bool := pc.kind = PieceKind.king && pc.color = Color.white
    let kingMovedB : Bool := pc.kind = PieceKind.king && pc.color = Color.black
    let touched (corner : Nat) : Bool := m.fromSq = corner || m.toSq = corner
    { pieces := ps4
      turn := st.turn.other
      castlingWK := st.castlingWK && !touched 7 && !kingMovedW
      castlingWQ := st.castlingWQ && !touched 0 && !kingMovedW
      castlingBK := st.castlingBK && !touched 63 && !kingMovedB
      castlingBQ := st.castlingBQ && !touched 56 && !kingMovedB
      epSquare :=
        if pc.kind = PieceKind.pawn ∧
            (rankZ m.toSq - rankZ m.fromSq = 2 ∨ rankZ m.fromSq - rankZ m.toSq = 2) then
          some ((m.fromSq + m.toSq) / 2)
        else none
      halfmoveClock :=
        if pc.kind = PieceKind.pawn || captured then 0 else st.halfmoveClock + 1
      fullmoveNumber :=
        if st.turn = Color.black then st.fullmoveNumber + 1 else st.fullmoveNumber }

/-- Destination squares for a slider at `sq`: walk each direction in
`dirs`, collecting empty squares and stopping at the first piece (an
enemy piece is a capture target, a friendly piece blocks). -/
def slideTargets (st : BoardState) (own : Color) (sq : Nat) (dirs : List (Int × Int)) :
    List Nat :=
  let rec go (df dr : Int) : Nat → Int → Int → List Nat
    | 0, _, _ => []
    | fuel + 1, f, r =>
      match squareAtFR (f + df) (r + dr) with
      | none => []
      | some t =>
        match pieceAt st t with
        | none => t :: go df dr fuel (f + df) (r + dr)
        | some p => if p.color = own then [] else [t]
  dirs.flatMap fun d => go d.1 d.2 7 (fileZ sq) (rankZ sq)

/-- Destination squares reached from `sq` by one of the given offsets and
not occupied by a friendly piece (knight and king steps). -/
def stepTargets (st : BoardState) (own : Color) (sq : Nat) (offs : List (Int × Int)) :
    List Nat :=
  offs.filterMap fun d =>
    match squareAtFR (fileZ sq + d.1) (rankZ sq + d.2) with
    | none => none
    | some t =>
      match pieceAt st t with
      | none => some t
      | some p => if p.color = own then none else some t

/-- The four eligible promotion kinds, in generation order. -/
def promoKinds : List PieceKind := [.queen, .rook, .bishop, .knight]

/-- Pawn moves from `sq` for a pawn of color `c`: single and double
pushes onto empty squares, diagonal captures of enemy pieces, en-passant
capture onto the en-passant target square; a move onto the final rank is
emitted once per promotion kind.  Modelled from the spec §4.1. -/
def pawnMoves (st : BoardState) (c : Color) (sq : Nat) : List Move :=
  let dir : Int := match c with | .white => 1 | .black => -1
  let startRank : Nat := match c with | .white => 1 | .black => 6
  let promoRank : Nat := match c with | .white => 7 | .black => 0
  let f := fileZ sq
  let r := rankZ sq
  let empty (t : Nat) : Bool := (pieceAt st t).isNone
  let single : List Nat :=
    match squareAtFR f (r + dir) with
    | some t => if empty t then [t] else []
    | none => []
  let dbl : List Nat :=
    if rankOf sq = startRank then
      match squareAtFR f (r + dir), squareAtFR f (r + 2 * dir) with
      | some t1, some t2 => if empty t1 && empty t2 then [t2] else []
      | _, _ => []
    else []
  let caps : List Nat :=
    [(-1 : Int), 1].filterMap fun df =>
      match squareAtFR (f + df) (r + dir) with
      | some t =>
        (match pieceAt st t with
         | some p => if p.color = c then none else some t
         | none => if st.epSquare = some t then some t else none)
      | none => none
  (single ++ dbl ++ caps).flatMap fun t =>
    if rankOf t = promoRank then promoKinds.map fun k => ⟨sq, t, some k⟩
    else [⟨sq, t, none⟩]

/-- Castling moves for the king of color `c` standing on `sq`.
Modelled from the spec §4.1: "castling (kingside/queenside, subject to
the unmoved-king/unmoved-rook and unattacked-path conditions)"; the
squares between king and rook must be empty and the king's start,
transit and target squares unattacked. -/
def castlingMoves (st : BoardState) (c : Color) (sq : Nat) : List Move :=
  let home : Nat := match c with | .white => 4 | .black => 60
  let rightK : Bool := match c with | .white => st.castlingWK | .black => st.castlingBK
  let rightQ : Bool := match c with | .white => st.castlingWQ | .black => st.castlingBQ
  let empty (t : Nat) : Bool := (pieceAt st t).isNone
  let safe (t : Nat) : Bool := !attacked st c.other t
  if sq = home then
    (if rightK && pieceAt st (home + 3) = some ⟨PieceKind.rook, c⟩ &&
        empty (home + 1) && empty (home + 2) &&
        safe home && safe (home + 1) && safe (home + 2) then
      [⟨sq, home + 2, none⟩] else []) ++
    (if rightQ && pieceAt st (home - 4) = some ⟨PieceKind.rook, c⟩ &&
        empty (home - 1) && empty (home - 2) && empty (home - 3) &&
        safe home && safe (home - 1) && safe (home - 2) then
      [⟨sq, home - 2, none⟩] else [])
  else []

/-- All pseudo-legal moves originating at `sq`: empty unless `sq` holds
a piece of the side to move.  Every emitted move has origin `sq`. -/
def movesFromSquare (st : BoardState) (sq : Nat) : List Move :=
  match pieceAt st sq with
  | none => []
  | some p =>
    if p.color = st.turn then
      match p.kind with
      | .pawn => pawnMoves st p.color sq
      | .knight => (stepTargets st p.color sq knightOffsets).map fun t => ⟨sq, t, none⟩
      | .bishop => (slideTargets st p.color sq bishopDirs).map fun t => ⟨sq, t, none⟩
      | .rook => (slideTargets st p.color sq rookDirs).map fun t => ⟨sq, t, none⟩
      | .queen =>
        (slideTargets st p.color sq (rookDirs ++ bishopDirs)).map fun t => ⟨sq, t, none⟩
      | .king =>
        (stepTargets st p.color sq kingOffsets).map (fun t => ⟨sq, t, none⟩) ++
        castlingMoves st p.color sq
    else []

/-- All pseudo-legal moves of the side to move. -/
def pseudoLegalMoves (st : BoardState) : List Move :=
  (List.range 64).flatMap (movesFromSquare st)

/-- Does the move leave the mover's own king attacked? -/
def leavesKingInCheck (st : BoardState) (m : Move) : Bool :=
  let st' := applyMove st m
  attacked st' st.turn.other (kingSquare st' st.turn)

/-- `board.legal_moves`.  Modelled from the spec §4.1: every pseudo-legal
move such that "after simulating the move, the moving side's king is not
attacked". -/
def legalMoves (st : BoardState) : List Move :=
  (pseudoLegalMoves st).filter fun m => !leavesKingInCheck st m

/-- `board.is_checkmate()`: in check and no legal moves. -/
def is_checkmate (st : BoardState) : Bool :=
  is_check st && (legalMoves st).isEmpty

/-- `board.is_stalemate()`: not in check and no legal moves. -/
def is_stalemate (st : BoardState) : Bool :=
  !is_check st && (legalMoves st).isEmpty

/-- `board.is_insufficient_material()`.  Modelled from the spec §4.3:
"insufficient mating material": no pawns, rooks or queens, and at most a
single minor piece — or bishops only, all standing on squares of one
color. -/
def is_insufficient_material (st : BoardState) : Bool :=
  let occupied := (List.range 64).filterMap fun sq =>
    match pieceAt st sq with
    | some p => some (sq, p)
    | none => none
  let heavy := occupied.any fun e =>
    e.2.kind = PieceKind.pawn ∨ e.2.kind = PieceKind.rook ∨ e.2.kind = PieceKind.queen
  let minors := occupied.filter fun e =>
    e.2.kind = PieceKind.knight ∨ e.2.kind = PieceKind.bishop
  let sameColorBishops :=
    (minors.all fun e => e.2.kind = PieceKind.bishop) &&
    ((minors.all fun e => (fileOf e.1 + rankOf e.1) % 2 = 0) ||
     (minors.all fun e => (fileOf e.1 + rankOf e.1) % 2 = 1))
  !heavy && (minors.length ≤ 1 || sameColorBishops)

/-- `board.is_game_over()`.  Modelled from the spec §4.3: "checkmate OR
stalemate OR any draw condition" (the draw conditions supported here are
those the status computation reports: stalemate and insufficient
material). -/
def is_game_over (st : BoardState) : Bool :=
  is_checkmate st || is_stalemate st || is_insufficient_material st

/-- The file letter of a square, as a string ("a".."h"). -/
def fileStr (sq : Nat) : String := String.mk [Char.ofNat (97 + fileOf sq)]

/-- The rank digit of a square, as a string ("1".."8"). -/
def rankStr (sq : Nat) : String := String.mk [Char.ofNat (49 + rankOf sq)]

/-- SAN letter of a piece kind (empty for a pawn). -/
def pieceLetter : PieceKind → String
  | .pawn => ""
  | .knight => "N"
  | .bishop => "B"
  | .rook => "R"
  | .queen => "Q"
  | .king => "K"

/-- SAN origin disambiguation: if another legal move of the same piece
kind reaches the same destination from a different origin, add the file
letter, else the rank digit, else both.  Modelled from the spec §4.2:
"notation depends on disambiguation against other legal moves in the
pre-move position". -/
def sanDisambiguation (st : BoardState) (m : Move) (kind : PieceKind) : String :=
  let others := (legalMoves st).filter fun m2 =>
    m2.toSq = m.toSq && m2.fromSq ≠ m.fromSq &&
    (match pieceAt st m2.fromSq with
     | some p => p.kind = kind
     | none => false)
  if others.isEmpty then ""
  else if others.all fun m2 => fileOf m2.fromSq ≠ fileOf m.fromSq then fileStr m.fromSq
  else if others.all fun m2 => rankOf m2.fromSq ≠ rankOf m.fromSq then rankStr m.fromSq
  else fileStr m.fromSq ++ rankStr m.fromSq

/-- SAN check/checkmate suffix, computed on the position after the move. -/
def sanSuffix (stAfter : BoardState) : String :=
  if is_checkmate stAfter then "#" else if is_check stAfter then "+" else ""

/-- `board.san(move)`: the algebraic notation of a move in the position
it is played in.  Modelled from the spec §4.2: "disambiguation against
other legal moves in the pre-move position, check/checkmate suffix,
capture marker, castling notation, promotion suffix".  Empty for a move
from an empty square (never reached for legal moves). -/
def sanOf (st : BoardState) (m : Move) : String :=
  match pieceAt st m.fromSq with
  | none => ""
  | some pc =>
    let suffix := sanSuffix (applyMove st m)
    if pc.kind = PieceKind.king &&
        ((fileZ m.toSq) - (fileZ m.fromSq) = 2 || (fileZ m.fromSq) - (fileZ m.toSq) = 2) then
      (if fileOf m.toSq = 6 then "O-O" else "O-O-O") ++ suffix
    else
      let promo := match m.promotion with
        | some k => "=" ++ pieceLetter k
        | none => ""
      if pc.kind = PieceKind.pawn then
        (if isCaptureMove st m then fileStr m.fromSq ++ "x" else "") ++
          square_name m.toSq ++ promo ++ suffix
      else
        pieceLetter pc.kind ++ sanDisambiguation st m pc.kind ++
          (if isCaptureMove st m then "x" else "") ++ square_name m.toSq ++ suffix

/-- The board object as the source uses it: the current position plus
the stack of (prior position, move) entries that `push` grows and `pop`
unwinds.  Modelled from the spec §3: each history entry stores "enough
information to ... reverse it exactly". -/
structure Board where
  state : BoardState
  stack : List (BoardState × Move)
deriving DecidableEq, Repr

/-- `chess.Board()`: the starting position with an empty move stack. -/
def Board.start : Board := ⟨startState, []⟩

/-- `board.push(move)`: apply the move and save the prior position. -/
def Board.push (b : Board) (m : Move) : Board :=
  ⟨applyMove b.state m, (b.state, m) :: b.stack⟩

/-- `board.pop()`: restore the most recent prior position; `none` models
the `IndexError` raised on an empty stack. -/
def Board.pop (b : Board) : Option Board :=
  match b.stack with
  | [] => none
  | (st, _) :: rest => some ⟨st, rest⟩

/-- The session state of `WebChessGame`: the board plus the notation
history (`self.board`, `self.move_history`).  The source's `game_id` is
a wall-clock timestamp used only as metadata and is not modelled. -/
structure Session where
  board : Board
  move_history : List String
deriving DecidableEq, Repr

/-- `WebChessGame.__init__`: fresh board, empty history. -/
def initSession : Session := ⟨Board.start, []⟩

/-- ASCII lower-casing of a character (`str.lower` on the inputs in use). -/
def charLower (c : Char) : Char :=
  if 'A' ≤ c ∧ c ≤ 'Z' then Char.ofNat (c.toNat + 32) else c

/-- ASCII lower-casing of a string (`str.lower` on the inputs in use). -/
def strLower (s : String) : String := String.mk (s.data.map charLower)

/-- ASCII upper-casing of a character. -/
def charUpper (c : Char) : Char :=
  if 'a' ≤ c ∧ c ≤ 'z' then Char.ofNat (c.toNat - 32) else c

/-- `str.title()` on the one-word color names: capitalize the first
character. -/
def strCapitalize (s : String) : String :=
  match s.data with
  | [] => ""
  | c :: rest => String.mk (charUpper c :: rest)

/-- `piece.symbol()`: upper-case letter for white, lower-case for black. -/
def pieceSymbol (p : Piece) : String :=
  let letter := match p.kind with
    | .pawn => "p"
    | .knight => "n"
    | .bishop => "b"
    | .rook => "r"
    | .queen => "q"
    | .king => "k"
  if p.color = Color.white then String.mk (letter.data.map charUpper) else letter

/-- `WebChessGame.get_board_state`: for each occupied square in square
order, its name with the piece symbol and color string. -/
def get_board_state (s : Session) : List (String × String × String) :=
  (List.range 64).filterMap fun sq =>
    match pieceAt s.board.state sq with
    | some p =>
      some (square_name sq, pieceSymbol p,
        if p.color = Color.white then "white" else "black")
    | none => none

/-- `WebChessGame.get_legal_moves_from_square`: destinations of the legal
moves whose origin is the named square; the `except` branch returning
`[]` corresponds to `parse_square` failing. -/
def get_legal_moves_from_square (s : Session) (sqName : String) : List String :=
  match parse_square sqName with
  | none => []
  | some sq =>
    ((legalMoves s.board.state).filter fun m => m.fromSq = sq).map
      fun m => square_name m.toSq

/-- The `promotion_pieces` mapping of `make_move` (lines 61-66). -/
def promotion_pieces : List (String × PieceKind) :=
  [("q", .queen), ("r", .rook), ("b", .bishop), ("n", .knight)]

/-- The candidate move `make_move` constructs (lines 57-67): the
promotion hint is attached only when it is truthy (non-empty) and its
lower-casing is one of "q", "r", "b", "n". -/
def buildMove (fsq tsq : Nat) (promotion : Option String) : Move :=
  match promotion with
  | some p =>
    if !p.isEmpty && ["q", "r", "b", "n"].contains (strLower p) then
      ⟨fsq, tsq, promotion_pieces.lookup (strLower p)⟩
    else ⟨fsq, tsq, none⟩
  | none => ⟨fsq, tsq, none⟩

/-- `str(e)` for the `ValueError` that `chess.parse_square` raises via
`SQUARE_NAMES.index(name)` on an unknown name. -/
def parse_error (name : String) : String := "'" ++ name ++ "' is not in list"

/-- `WebChessGame.make_move`: parse both squares (a failure lands in the
`except` branch, returning the exception text), build the candidate
move, test membership in the legal-move set, and on success record the
pre-move SAN, push the move and append the SAN to the history.  The
returned triple is (state of `self` after the call, success flag,
message) — the source mutates `self` and returns `(success, message)`. -/
def make_move (s : Session) (from_square to_square : String)
    (promotion : Option String) : Session × Bool × String :=
  match parse_square from_square with
  | none => (s, false, parse_error from_square)
  | some fsq =>
    match parse_square to_square with
    | none => (s, false, parse_error to_square)
    | some tsq =>
      let move := buildMove fsq tsq promotion
      if move ∈ legalMoves s.board.state then
        let move_san := sanOf s.board.state move
        (⟨s.board.push move, s.move_history ++ [move_san]⟩, true, move_san)
      else
        (s, false, "Illegal move")

/-- Values of the status dictionary `get_game_status` builds. -/
inductive StatusValue where
  | str (s : String)
  | bool (b : Bool)
  | nat (n : Nat)
  | null
deriving DecidableEq, Repr

/-- `WebChessGame.get_game_status`: the status dictionary, modelled as
the association list of its keys in insertion order. -/
def get_game_status (s : Session) : List (String × StatusValue) :=
  let st := s.board.state
  let status : List (String × StatusValue) :=
    [("turn", .str (if st.turn = Color.white then "white" else "black")),
     ("is_check", .bool (is_check st)),
     ("is_checkmate", .bool (is_checkmate st)),
     ("is_stalemate", .bool (is_stalemate st)),
     ("is_game_over", .bool (is_game_over st)),
     ("move_count", .nat s.move_history.length),
     ("last_move",
       match s.move_history.getLast? with
       | some m => .str m
       | none => .null)]
  if is_checkmate st then
    let winner := if st.turn = Color.white then "black" else "white"
    status ++
      [("winner", .str winner),
       ("result", .str (strCapitalize winner ++ " wins by checkmate!"))]
  else if is_stalemate st then
    status ++ [("result", .str "Draw by stalemate!")]
  else if is_insufficient_material st then
    status ++ [("result", .str "Draw by insufficient material!")]
  else status

/-- `WebChessGame.undo_move`: no-op returning `false` on an empty
history; otherwise pop the board and drop the last history entry.
`none` models the `IndexError` that `board.pop()` would raise if the
board's stack were empty while the history is not. -/
def undo_move (s : Session) : Option (Session × Bool) :=
  if s.move_history.isEmpty then some (s, false)
  else
    match s.board.pop with
    | some b => some (⟨b, s.move_history.dropLast⟩, true)
    | none => none

/-- `WebChessGame.reset_game`: fresh board, empty history (the source
also refreshes the unmodelled timestamp `game_id`). -/
def reset_game (_s : Session) : Session := ⟨Board.start, []⟩

/-! ## Theorems -/

/-- C1: For every session state and every move attempt whose candidate
move is not in the legal-move set of the current position, `make_move`
returns a failure with the message "Illegal move" and leaves the session
(position and move history) exactly as it was. -/
theorem make_move_illegal_unchanged (s : Session) (f t : String) (p : Option String)
    (fsq tsq : Nat) (hf : parse_square f = some fsq) (ht : parse_square t = some tsq)
    (hm : buildMove fsq tsq p ∉ legalMoves s.board.state) :
    make_move s f t p = (s, false, "Illegal move") := by
  simp only [make_move, hf, ht]
  rw [if_neg hm]

/-- C1 witness: attempting a2a5 from the starting position fails with
"Illegal move" and leaves the session unchanged. -/
theorem make_move_illegal_unchanged_witness :
    make_move initSession "a2" "a5" none = (initSession, false, "Illegal move") :=
  make_move_illegal_unchanged initSession "a2" "a5" none 8 32
    (by decide) (by decide) (by decide)

/-- C3: When the move history is empty, `undo_move` returns `false` and
changes nothing: the session is returned exactly as it was. -/
theorem undo_move_empty_history (s : Session) (h : s.move_history = []) :
    undo_move s = some (s, false) := by
  simp [undo_move, h]

/-- C3 witness: undoing on the fresh session is a no-op returning false. -/
theorem undo_move_empty_history_witness :
    undo_move initSession = some (initSession, false) :=
  undo_move_empty_history initSession rfl

/-- C2: A successful `make_move` immediately followed by `undo_move`
restores the exact prior session — the full prior position (piece
placement, castling rights, en-passant target, clocks) and the prior
history. -/
theorem make_move_undo_roundtrip (s s' : Session) (f t : String) (p : Option String)
    (san : String) (h : make_move s f t p = (s', true, san)) :
    undo_move s' = some (s, true) := by
  cases hf : parse_square f with
  | none => simp [make_move, hf] at h
  | some fsq =>
    cases ht : parse_square t with
    | none => simp [make_move, hf, ht] at h
    | some tsq =>
      by_cases hm : buildMove fsq tsq p ∈ legalMoves s.board.state
      · simp only [make_move, hf, ht, if_pos hm] at h
        have hs' : s' = ⟨s.board.push (buildMove fsq tsq p),
            s.move_history ++ [sanOf s.board.state (buildMove fsq tsq p)]⟩ :=
          (congrArg Prod.fst h).symm
        subst hs'
        simp [undo_move, Board.push, Board.pop, List.dropLast_concat]
      · simp [make_move, hf, ht, hm] at h

/-- C2 witness: playing e2e4 from the fresh session and undoing it
restores the fresh session exactly. -/
theorem make_move_undo_roundtrip_witness :
    undo_move (make_move initSession "e2" "e4" none).1 = some (initSession, true) :=
  make_move_undo_roundtrip initSession (make_move initSession "e2" "e4" none).1
    "e2" "e4" none "e4" (by decide)

/-- The standard starting arrangement as `get_board_state` reports it. -/
def standard_start_arrangement : List (String × String × String) :=
  [("a1", "R", "white"), ("b1", "N", "white"), ("c1", "B", "white"), ("d1", "Q", "white"),
   ("e1", "K", "white"), ("f1", "B", "white"), ("g1", "N", "white"), ("h1", "R", "white"),
   ("a2", "P", "white"), ("b2", "P", "white"), ("c2", "P", "white"), ("d2", "P", "white"),
   ("e2", "P", "white"), ("f2", "P", "white"), ("g2", "P", "white"), ("h2", "P", "white"),
   ("a7", "p", "black"), ("b7", "p", "black"), ("c7", "p", "black"), ("d7", "p", "black"),
   ("e7", "p", "black"), ("f7", "p", "black"), ("g7", "p", "black"), ("h7", "p", "black"),
   ("a8", "r", "black"), ("b8", "n", "black"), ("c8", "b", "black"), ("d8", "q", "black"),
   ("e8", "k", "black"), ("f8", "b", "black"), ("g8", "n", "black"), ("h8", "r", "black")]

/-- C4: `reset_game` is idempotent — from any session, resetting twice
yields literally the same session as resetting once (hence the same
board snapshot and status), the history is empty after each call, and
the snapshot after a reset is the standard starting arrangement. -/
theorem reset_game_idempotent (s : Session) :
    reset_game (reset_game s) = reset_game s ∧
    (reset_game s).move_history = [] ∧
    (reset_game (reset_game s)).move_history = [] ∧
    get_board_state (reset_game s) = standard_start_arrangement ∧
    get_game_status (reset_game (reset_game s)) = get_game_status (reset_game s) :=
  ⟨rfl, rfl, rfl,
    (by decide : get_board_state initSession = standard_start_arrangement), rfl⟩

/-- C8: When either square name fails to parse, `make_move` returns a
structured failure — the flag-and-message pair, never an unhandled
fault — whose message is the square-parse error (the `InvalidSquare`
kind, distinct from the "Illegal move" message), and the session is
unchanged. -/
theorem make_move_invalid_square (s : Session) (f t : String) (p : Option String) :
    (parse_square f = none → make_move s f t p = (s, false, parse_error f)) ∧
    (∀ fsq, parse_square f = some fsq → parse_square t = none →
      make_move s f t p = (s, false, parse_error t)) ∧
    (∀ n, parse_error n ≠ "Illegal move") := by
  refine ⟨fun hf => by simp [make_move, hf], fun fsq hf ht => by simp [make_move, hf, ht],
    fun n h => ?_⟩
  have hlen := congrArg String.length h
  have h1 : ("'" : String).length = 1 := by decide
  have h2 : ("' is not in list" : String).length = 16 := by decide
  have h3 : ("Illegal move" : String).length = 12 := by decide
  simp only [parse_error, String.length_append, h1, h2, h3] at hlen
  omega

/-- C8 witness: the unparsable names "z9" and "e9" each produce the
structured invalid-square failure on the fresh session, unchanged. -/
theorem make_move_invalid_square_witness :
    make_move initSession "z9" "e4" none = (initSession, false, parse_error "z9") ∧
    make_move initSession "e2" "e9" none = (initSession, false, parse_error "e9") ∧
    parse_error "z9" ≠ "Illegal move" :=
  ⟨(make_move_invalid_square initSession "z9" "e4" none).1 (by decide),
   (make_move_invalid_square initSession "e2" "e9" none).2.1 12 (by decide) (by decide),
   (make_move_invalid_square initSession "z9" "e4" none).2.2 "z9"⟩

/-- C9: The supplied promotion hint is attached to the candidate move
exactly when its lower-casing is one of the four eligible letters "q",
"r", "b", "n" (in which case the attached kind is the one the
`promotion_pieces` mapping assigns to it); any other hint is silently
ignored and `make_move` behaves as if no promotion were given. -/
theorem promotion_hint_policy (fsq tsq : Nat) (p : String) :
    (buildMove fsq tsq (some p)).promotion = promotion_pieces.lookup (strLower p) ∧
    ((buildMove fsq tsq (some p)).promotion.isSome ↔
      strLower p ∈ (["q", "r", "b", "n"] : List String)) ∧
    (strLower p ∉ (["q", "r", "b", "n"] : List String) →
      ∀ s f t, make_move s f t (some p) = make_move s f t none) := by
  by_cases he : p = ""
  · subst he
    have hc : (!("" : String).isEmpty &&
        (["q", "r", "b", "n"] : List String).contains (strLower "")) = false := by decide
    have hbuild : buildMove fsq tsq (some "") = ⟨fsq, tsq, none⟩ := by
      simp only [buildMove]
      rw [hc]
      rfl
    have hB : ∀ a b : Nat, buildMove a b (some "") = buildMove a b none := by
      intro a b
      simp only [buildMove]
      rw [hc]
      rfl
    refine ⟨?_, ?_, fun _ s f t => ?_⟩
    · rw [hbuild]
      rfl
    · rw [hbuild]
      show (none : Option PieceKind).isSome = true ↔ _
      simp only [Option.isSome_none, Bool.false_eq_true, false_iff]
      decide
    · simp only [make_move, hB]
  · have hne : p.isEmpty = false := by
      rcases h : p.isEmpty with _ | _
      · rfl
      · exact absurd ((String.isEmpty_iff p).mp h) he
    have hkey : (promotion_pieces.lookup (strLower p)).isSome = true ↔
        strLower p ∈ (["q", "r", "b", "n"] : List String) := by
      rw [List.lookup_isSome_iff]
      simp [promotion_pieces]
    by_cases hm : strLower p ∈ (["q", "r", "b", "n"] : List String)
    · have hc : (!p.isEmpty &&
          (["q", "r", "b", "n"] : List String).contains (strLower p)) = true := by
        simp [hne, List.elem_eq_mem, hm]
      have hbuild : buildMove fsq tsq (some p) =
          ⟨fsq, tsq, promotion_pieces.lookup (strLower p)⟩ := by
        simp only [buildMove]
        rw [hc]
        rfl
      exact ⟨by rw [hbuild], by rw [hbuild]; exact hkey, fun hq => absurd hm hq⟩
    · have hc : (!p.isEmpty &&
          (["q", "r", "b", "n"] : List String).contains (strLower p)) = false := by
        simp [hne, List.elem_eq_mem, hm]
      have hlook : promotion_pieces.lookup (strLower p) = none := by
        rcases hl : promotion_pieces.lookup (strLower p) with _ | k
        · rfl
        · exact absurd (hkey.mp (by rw [hl]; rfl)) hm
      have hbuild : ∀ a b : Nat, buildMove a b (some p) = ⟨a, b, none⟩ := by
        intro a b
        simp only [buildMove]
        rw [hc]
        rfl
      have hB : ∀ a b : Nat, buildMove a b (some p) = buildMove a b none := by
        intro a b
        rw [hbuild a b]
        rfl
      refine ⟨by rw [hbuild fsq tsq, hlook], ?_, fun _ s f t => ?_⟩
      · rw [hbuild fsq tsq]
        show (none : Option PieceKind).isSome = true ↔ _
        simp only [Option.isSome_none, Bool.false_eq_true, false_iff]
        exact hm
      · simp only [make_move, hB]

/-- C9 witness: the hint "Q" attaches a queen promotion; the hint "x"
is ignored and the move is processed as if no promotion were given. -/
theorem promotion_hint_policy_witness :
    (buildMove 8 16 (some "Q")).promotion = some PieceKind.queen ∧
    make_move initSession "e2" "e4" (some "x") = make_move initSession "e2" "e4" none :=
  ⟨by rw [(promotion_hint_policy 8 16 "Q").1]; decide,
   (promotion_hint_policy 0 0 "x").2.2 (by decide) initSession "e2" "e4"⟩

/-- Every move the generator emits from a square originates there. -/
theorem fromSq_of_mem_movesFromSquare (st : BoardState) (sq : Nat) (m : Move)
    (hm : m ∈ movesFromSquare st sq) : m.fromSq = sq := by
  unfold movesFromSquare at hm
  rcases hp : pieceAt st sq with _ | ⟨k, c⟩ <;> rw [hp] at hm
  · simp at hm
  · dsimp only at hm
    split at hm
    case isFalse => simp at hm
    case isTrue hcol =>
      cases k <;> dsimp only at hm
      case pawn =>
        simp only [pawnMoves, List.mem_flatMap] at hm
        obtain ⟨t, _, hmem⟩ := hm
        split at hmem
        · obtain ⟨k', _, rfl⟩ := List.mem_map.mp hmem
          rfl
        · rw [List.mem_singleton] at hmem
          subst hmem
          rfl
      case knight =>
        obtain ⟨t, _, rfl⟩ := List.mem_map.mp hm
        rfl
      case bishop =>
        obtain ⟨t, _, rfl⟩ := List.mem_map.mp hm
        rfl
      case rook =>
        obtain ⟨t, _, rfl⟩ := List.mem_map.mp hm
        rfl
      case queen =>
        obtain ⟨t, _, rfl⟩ := List.mem_map.mp hm
        rfl
      case king =>
        rcases List.mem_append.mp hm with h | h
        · obtain ⟨t, _, rfl⟩ := List.mem_map.mp h
          rfl
        · unfold castlingMoves at h
          dsimp only at h
          split at h
          · rcases List.mem_append.mp h with h2 | h2 <;> split at h2 <;>
              simp at h2 <;> subst h2 <;> rfl
          · simp at h

/-- The generator emits moves from a square only when that square holds
a piece of the side to move. -/
theorem piece_of_mem_movesFromSquare (st : BoardState) (sq : Nat) (m : Move)
    (hm : m ∈ movesFromSquare st sq) :
    ∃ p, pieceAt st sq = some p ∧ p.color = st.turn := by
  unfold movesFromSquare at hm
  rcases hp : pieceAt st sq with _ | p <;> rw [hp] at hm
  · simp at hm
  · dsimp only at hm
    split at hm
    case isTrue hcol => exact ⟨p, rfl, hcol⟩
    case isFalse => simp at hm

/-- Every legal move originates at a square holding a piece of the side
to move. -/
theorem legalMoves_own_piece (st : BoardState) (m : Move) (hm : m ∈ legalMoves st) :
    ∃ p, pieceAt st m.fromSq = some p ∧ p.color = st.turn := by
  have hp : m ∈ pseudoLegalMoves st := (List.mem_filter.mp hm).1
  unfold pseudoLegalMoves at hp
  obtain ⟨sq, _, hmem⟩ := List.mem_flatMap.mp hp
  rw [fromSq_of_mem_movesFromSquare st sq m hmem]
  exact piece_of_mem_movesFromSquare st sq m hmem

/-- C7: `get_legal_moves_from_square` never fails: an unparsable square
name yields `[]`; a parsed square yields exactly the destinations of the
legal moves originating there, which is `[]` when the square is empty or
holds a piece of the side NOT to move. -/
theorem moves_from_contract (s : Session) (name : String) :
    (parse_square name = none → get_legal_moves_from_square s name = []) ∧
    (∀ sq, parse_square name = some sq →
      get_legal_moves_from_square s name =
        ((legalMoves s.board.state).filter fun m => m.fromSq = sq).map
          (fun m => square_name m.toSq) ∧
      (pieceAt s.board.state sq = none → get_legal_moves_from_square s name = []) ∧
      (∀ p, pieceAt s.board.state sq = some p → p.color ≠ s.board.state.turn →
        get_legal_moves_from_square s name = [])) := by
  refine ⟨fun h => by simp [get_legal_moves_from_square, h], fun sq hsq => ?_⟩
  have hdef : get_legal_moves_from_square s name =
      ((legalMoves s.board.state).filter fun m => m.fromSq = sq).map
        (fun m => square_name m.toSq) := by
    simp [get_legal_moves_from_square, hsq]
  refine ⟨hdef, fun hempty => ?_, fun p hp hcol => ?_⟩
  · rw [hdef]
    have hnil : (legalMoves s.board.state).filter (fun m => m.fromSq = sq) = [] := by
      rw [List.filter_eq_nil_iff]
      intro m hmem
      obtain ⟨q, hq, _⟩ := legalMoves_own_piece _ m hmem
      simp only [decide_eq_true_eq]
      intro heq
      rw [heq, hempty] at hq
      exact Option.noConfusion hq
    rw [hnil]
    rfl
  · rw [hdef]
    have hnil : (legalMoves s.board.state).filter (fun m => m.fromSq = sq) = [] := by
      rw [List.filter_eq_nil_iff]
      intro m hmem
      obtain ⟨q, hq, hqc⟩ := legalMoves_own_piece _ m hmem
      simp only [decide_eq_true_eq]
      intro heq
      rw [heq, hp] at hq
      obtain rfl : p = q := Option.some.inj hq
      exact hcol hqc
    rw [hnil]
    rfl

/-- C7 witness: on the fresh session, the empty square e5, the
black-occupied square e7 and the unparsable name "x9" each yield `[]`. -/
theorem moves_from_contract_witness :
    get_legal_moves_from_square initSession "e5" = [] ∧
    get_legal_moves_from_square initSession "e7" = [] ∧
    get_legal_moves_from_square initSession "x9" = [] :=
  ⟨((moves_from_contract initSession "e5").2 36 (by decide)).2.1 (by decide),
   ((moves_from_contract initSession "e7").2 52 (by decide)).2.2
     ⟨PieceKind.pawn, Color.black⟩ (by decide) (by decide),
   (moves_from_contract initSession "x9").1 (by decide)⟩

/-- The name of a color as the status dictionary reports it. -/
def colorName : Color → String
  | .white => "white"
  | .black => "black"

/-- The session after playing f2f3, e7e5, g2g4, d8h4 from the start. -/
def foolsMateSession : Session :=
  (make_move (make_move (make_move (make_move initSession
    "f2" "f3" none).1 "e7" "e5" none).1 "g2" "g4" none).1 "d8" "h4" none).1

/-- C5: In every checkmate position the status reports the winner as the
side that is NOT to move, with result string "<Winner> wins by
checkmate!"; and the fool's-mate sequence f2f3, e7e5, g2g4, d8h4 yields
is_checkmate true, winner black, result "Black wins by checkmate!". -/
theorem checkmate_status (s : Session) (h : is_checkmate s.board.state = true) :
    (("winner", StatusValue.str (colorName s.board.state.turn.other)) ∈
        get_game_status s ∧
      ("result", StatusValue.str (strCapitalize (colorName s.board.state.turn.other) ++
        " wins by checkmate!")) ∈ get_game_status s) ∧
    (("is_checkmate", StatusValue.bool true) ∈ get_game_status foolsMateSession ∧
     ("winner", StatusValue.str "black") ∈ get_game_status foolsMateSession ∧
     ("result", StatusValue.str "Black wins by checkmate!") ∈
        get_game_status foolsMateSession) := by
  refine ⟨⟨?_, ?_⟩, by decide, by decide, by decide⟩ <;>
  · rcases hturn : s.board.state.turn with _ | _ <;>
    · simp only [get_game_status]
      rw [hturn, h]
      simp only [if_true, eq_self_iff_true, reduceIte]
      refine List.mem_append_right _ ?_
      simp [colorName, Color.other, strCapitalize, charUpper]

/-- C5 witness: the fool's-mate session is in checkmate, so the general
winner/result clause applies to it and reports black as the winner. -/
theorem checkmate_status_witness :
    ("winner", StatusValue.str (colorName foolsMateSession.board.state.turn.other)) ∈
      get_game_status foolsMateSession ∧
    ("result", StatusValue.str
        (strCapitalize (colorName foolsMateSession.board.state.turn.other) ++
          " wins by checkmate!")) ∈ get_game_status foolsMateSession :=
  (checkmate_status foolsMateSession (by decide)).1

/-- A bare-kings position: white king e1, black king e8, white to move. -/
def kingsOnlyState : BoardState where
  pieces := (List.range 64).map fun sq =>
    if sq = 4 then some ⟨PieceKind.king, Color.white⟩
    else if sq = 60 then some ⟨PieceKind.king, Color.black⟩
    else none
  turn := .white
  castlingWK := false
  castlingWQ := false
  castlingBK := false
  castlingBQ := false
  epSquare := none
  halfmoveClock := 0
  fullmoveNumber := 1

/-- A session at the bare-kings position. -/
def kingsOnlySession : Session := ⟨⟨kingsOnlyState, []⟩, []⟩

/-- C6 counterexample: the bare-kings session is drawn by insufficient
material, yet its status dictionary has no "is_draw_other" key at all —
the claimed flag does not exist in the snapshot. -/
theorem no_is_draw_other_key :
    is_insufficient_material kingsOnlyState = true ∧
    ((get_game_status kingsOnlySession).map Prod.fst).contains "is_draw_other" = false ∧
    ((get_game_status initSession).map Prod.fst).contains "is_draw_other" = false := by
  refine ⟨by decide, by decide, by decide⟩

/-- C6 (amended): the status dictionary carries exactly the keys turn,
is_check, is_checkmate, is_stalemate, is_game_over, move_count and
last_move, plus winner/result on checkmate and result alone on stalemate
or insufficient material; a draw other than stalemate is surfaced only
through the result string "Draw by insufficient material!", not through
a boolean flag. -/
theorem status_fields (s : Session) :
    ((get_game_status s).map Prod.fst =
      ["turn", "is_check", "is_checkmate", "is_stalemate", "is_game_over",
       "move_count", "last_move"] ++
      (if is_checkmate s.board.state then ["winner", "result"]
       else if is_stalemate s.board.state then ["result"]
       else if is_insufficient_material s.board.state then ["result"]
       else [])) ∧
    (is_insufficient_material s.board.state = true →
      is_checkmate s.board.state = false → is_stalemate s.board.state = false →
      ("result", StatusValue.str "Draw by insufficient material!") ∈
        get_game_status s) := by
  constructor
  · unfold get_game_status
    by_cases h1 : is_checkmate s.board.state
    · simp [h1]
    · simp only [Bool.not_eq_true] at h1
      by_cases h2 : is_stalemate s.board.state
      · simp [h1, h2]
      · simp only [Bool.not_eq_true] at h2
        by_cases h3 : is_insufficient_material s.board.state
        · simp [h1, h2, h3]
        · simp only [Bool.not_eq_true] at h3
          simp [h1, h2, h3]
  · intro h1 h2 h3
    simp only [get_game_status]
    rw [h1, h2, h3]
    simp

/-- C6 witness (for the amended claim): at the bare-kings session the
insufficient-material draw is reported via the result string. -/
theorem status_fields_witness :
    ("result", StatusValue.str "Draw by insufficient material!") ∈
      get_game_status kingsOnlySession :=
  (status_fields kingsOnlySession).2 (by decide) (by decide) (by decide)

/-- The history/stack correspondence: the notation history is exactly
the per-move SAN of the board's move stack, in chronological order. -/
def historyInv (s : Session) : Prop :=
  s.move_history = (s.board.stack.map fun e => sanOf e.1 e.2).reverse

/-- Sessions reachable from the fresh session through the engine's
mutating operations. -/
inductive Reachable : Session → Prop where
  | init : Reachable initSession
  | move (s : Session) (f t : String) (p : Option String) (h : Reachable s) :
      Reachable (make_move s f t p).1
  | undo (s s' : Session) (b : Bool) (h : Reachable s)
      (hu : undo_move s = some (s', b)) : Reachable s'
  | reset (s : Session) (h : Reachable s) : Reachable (reset_game s)

/-- C10: In every reachable session the notation history mirrors the
board's move stack — same length, i-th entry the notation of the i-th
applied move — so whenever the history is non-empty `board.pop` (and
hence `undo_move`) has an entry to remove, and the status's `last_move`
field is the notation of the board's most recent move. -/
theorem history_stack_invariant (s : Session) (h : Reachable s) :
    historyInv s ∧
    s.move_history.length = s.board.stack.length ∧
    (s.move_history ≠ [] → (s.board.pop).isSome ∧ (undo_move s).isSome) ∧
    (get_game_status s)[6]? = some ("last_move",
      match s.board.stack.head? with
      | some e => StatusValue.str (sanOf e.1 e.2)
      | none => StatusValue.null) := by
  have hinv : historyInv s := by
    induction h with
    | init => rfl
    | move s f t p h ih =>
      unfold historyInv at ih ⊢
      cases hf : parse_square f with
      | none => simp only [make_move, hf]; exact ih
      | some fsq =>
        cases ht : parse_square t with
        | none => simp only [make_move, hf, ht]; exact ih
        | some tsq =>
          by_cases hm : buildMove fsq tsq p ∈ legalMoves s.board.state
          · simp only [make_move, hf, ht, if_pos hm, Board.push, List.map_cons,
              List.reverse_cons]
            rw [ih]
          · simp only [make_move, hf, ht, if_neg hm]
            exact ih
    | undo s s' b h hu ih =>
      unfold undo_move at hu
      by_cases he : s.move_history.isEmpty
      · rw [if_pos he] at hu
        obtain ⟨rfl, -⟩ : s = s' ∧ False ≠ True := by
          have := Option.some.inj hu
          exact ⟨congrArg Prod.fst this, fun hx => by simp at hx⟩
        exact ih
      · rw [if_neg he] at hu
        cases hp : s.board.pop with
        | none => rw [hp] at hu; simp at hu
        | some b2 =>
          rw [hp] at hu
          have hs' : s' = ⟨b2, s.move_history.dropLast⟩ :=
            (congrArg Prod.fst (Option.some.inj hu)).symm
          subst hs'
          unfold Board.pop at hp
          cases hst : s.board.stack with
          | nil => rw [hst] at hp; simp at hp
          | cons e rest =>
            rw [hst] at hp
            have hb2 : b2 = ⟨e.1, rest⟩ := (Option.some.inj hp).symm
            subst hb2
            unfold historyInv at ih ⊢
            rw [ih, hst]
            simp [List.dropLast_concat]
    | reset s h ih => rfl
  have hlen : s.move_history.length = s.board.stack.length := by
    rw [hinv]
    simp
  have hlast : s.move_history.getLast? =
      s.board.stack.head?.map (fun e => sanOf e.1 e.2) := by
    rw [hinv, List.getLast?_reverse, List.head?_map]
  refine ⟨hinv, hlen, fun hne => ?_, ?_⟩
  · have hstack : s.board.stack ≠ [] := by
      intro hx
      rw [hx] at hlen
      exact hne (List.eq_nil_of_length_eq_zero hlen)
    have hpop : (s.board.pop).isSome := by
      unfold Board.pop
      cases hst : s.board.stack with
      | nil => exact absurd hst hstack
      | cons e rest => rfl
    refine ⟨hpop, ?_⟩
    unfold undo_move
    rw [if_neg (by simpa [List.isEmpty_iff] using hne)]
    obtain ⟨b2, hb2⟩ := Option.isSome_iff_exists.mp hpop
    rw [hb2]
    rfl
  · have hsplit : ∃ tail, get_game_status s =
        [("turn", StatusValue.str
            (if s.board.state.turn = Color.white then "white" else "black")),
         ("is_check", StatusValue.bool (is_check s.board.state)),
         ("is_checkmate", StatusValue.bool (is_checkmate s.board.state)),
         ("is_stalemate", StatusValue.bool (is_stalemate s.board.state)),
         ("is_game_over", StatusValue.bool (is_game_over s.board.state)),
         ("move_count", StatusValue.nat s.move_history.length),
         ("last_move",
           match s.move_history.getLast? with
           | some m => StatusValue.str m
           | none => StatusValue.null)] ++ tail := by
      simp only [get_game_status]
      split
      · exact ⟨_, rfl⟩
      · split
        · exact ⟨_, rfl⟩
        · split
          · exact ⟨_, rfl⟩
          · exact ⟨[], (List.append_nil _).symm⟩
    obtain ⟨tail, htail⟩ := hsplit
    rw [htail, List.getElem?_append_left (by simp)]
    rw [hlast]
    cases hh : s.board.stack.head? with
    | none => rfl
    | some e => rfl

/-- C10 witness: the invariant holds at the session reached by playing
e2e4 from the fresh session. -/
theorem history_stack_invariant_witness :
    historyInv (make_move initSession "e2" "e4" none).1 ∧
    (make_move initSession "e2" "e4" none).1.move_history.length =
      (make_move initSession "e2" "e4" none).1.board.stack.length ∧
    ((make_move initSession "e2" "e4" none).1.move_history ≠ [] →
      ((make_move initSession "e2" "e4" none).1.board.pop).isSome ∧
      (undo_move (make_move initSession "e2" "e4" none).1).isSome) ∧
    (get_game_status (make_move initSession "e2" "e4" none).1)[6]? =
      some ("last_move",
        match (make_move initSession "e2" "e4" none).1.board.stack.head? with
        | some e => StatusValue.str (sanOf e.1 e.2)
        | none => StatusValue.null) :=
  history_stack_invariant (make_move initSession "e2" "e4" none).1
    (Reachable.move initSession "e2" "e4" none Reachable.init)

end ChessCom
